import Mathlib

/-!
# Sneaker Side-Hustle Tracker: the transaction cache of `src/pages/Index.jsx`

A shallow embedding of the transaction store (`useTransactions`), of the form
submission glue (`TransactionForm.handleSubmit`) and of the page handlers
(`Index.handleAddTransaction`, `Index.handleUpdateTransaction`,
`Index.handleDeleteTransaction`).

Modelling conventions.

* A JavaScript field value is a `Value`: `undefined`, a number or a string.
* A transaction of the cache is an object with a numeric `id` (the placeholders
  carry 1, 2, 3, `Date.now()` yields an integer number of milliseconds) and the
  four fields `date`, `amount`, `type`, `category`.
* The object a form captures is a `Record`: the same four fields, and an `id`
  key that is present in edit mode (the form's default values are the edited
  transaction) and absent in create mode.
* `Date.now()` is an explicit argument `now` of everything that reads the clock.
* A mutation is `mutationFn` followed by `onSuccess` on the cached list: the
  promise returned by `mutationFn` is already resolved, so `mutate` is the
  composition of the two.
* `form.reset()` is code of the `react-hook-form` library: the form's state is an
  abstract type and `reset` an argument of `TransactionForm.handleSubmit`.
* The cached list is the value the query has already resolved to: the updaters
  of `setQueryData` always receive a list. The store never reads a field other
  than `id`.
-/

namespace SneakerHub

/-- A JavaScript value as it can sit in a field of a transaction. -/
inductive Value where
  | undefined : Value
  | num (n : Int) : Value
  | str (s : String) : Value
  deriving DecidableEq, Repr

/-- The object captured by the form: the four fields, and the `id` key when the
form was opened on an existing transaction. -/
structure Record where
  id : Option Int
  date : Value
  amount : Value
  type : Value
  category : Value
  deriving DecidableEq, Repr

/-- An element of the cached list: an object whose `id` key holds a number. -/
structure Transaction where
  id : Int
  date : Value
  amount : Value
  type : Value
  category : Value
  deriving DecidableEq, Repr

/-- The object spread `{ ...data, id: i }`: every field of `data`, the `id` key
overwritten with `i`. -/
def Record.withId (data : Record) (i : Int) : Transaction :=
  { id := i, date := data.date, amount := data.amount, type := data.type,
    category := data.category }

/-- The constant `placeholderTransactions`. -/
def placeholderTransactions : List Transaction :=
  [ { id := 1, date := .str "2023-03-15", amount := .num 250, type := .str "expense",
      category := .str "Nike" },
    { id := 2, date := .str "2023-03-20", amount := .num 300, type := .str "income",
      category := .str "Adidas" },
    { id := 3, date := .str "2023-03-25", amount := .num 180, type := .str "expense",
      category := .str "Puma" } ]

/-! ## `useTransactions` -/

/-- The `mutationFn` of `addTransaction`: `{ ...newTransaction, id: Date.now() }`. -/
def addTransaction.mutationFn (now : Int) (newTransaction : Record) : Transaction :=
  newTransaction.withId now

/-- The `onSuccess` of `addTransaction`: `(old) => [...old, data]`. -/
def addTransaction.onSuccess (data : Transaction) (old : List Transaction) :
    List Transaction :=
  old ++ [data]

/-- The whole add mutation on the cached list. -/
def addTransaction.mutate (now : Int) (newTransaction : Record)
    (old : List Transaction) : List Transaction :=
  addTransaction.onSuccess (addTransaction.mutationFn now newTransaction) old

/-- The `mutationFn` of `updateTransaction`: the identity. -/
def updateTransaction.mutationFn (updatedTransaction : Transaction) : Transaction :=
  updatedTransaction

/-- The `onSuccess` of `updateTransaction`:
`old.map((t) => (t.id === data.id ? data : t))`. -/
def updateTransaction.onSuccess (data : Transaction) (old : List Transaction) :
    List Transaction :=
  old.map (fun t => if t.id = data.id then data else t)

/-- The whole update mutation on the cached list. -/
def updateTransaction.mutate (updatedTransaction : Transaction)
    (old : List Transaction) : List Transaction :=
  updateTransaction.onSuccess (updateTransaction.mutationFn updatedTransaction) old

/-- The `mutationFn` of `deleteTransaction`: the identity. -/
def deleteTransaction.mutationFn (id : Int) : Int :=
  id

/-- The `onSuccess` of `deleteTransaction`: `old.filter((t) => t.id !== id)`. -/
def deleteTransaction.onSuccess (id : Int) (old : List Transaction) :
    List Transaction :=
  old.filter (fun t => t.id != id)

/-- The whole delete mutation on the cached list. -/
def deleteTransaction.mutate (id : Int) (old : List Transaction) : List Transaction :=
  deleteTransaction.onSuccess (deleteTransaction.mutationFn id) old

/-! ## Sequences of store operations -/

/-- One call of a store mutation; `add` carries the value the clock yields
during the call. -/
inductive Op where
  | add (now : Int) (r : Record) : Op
  | update (u : Transaction) : Op
  | delete (id : Int) : Op
  deriving DecidableEq, Repr

/-- The effect of one mutation on the cached list. -/
def Op.apply (old : List Transaction) : Op → List Transaction
  | .add now r => addTransaction.mutate now r old
  | .update u => updateTransaction.mutate u old
  | .delete id => deleteTransaction.mutate id old

/-- The cached list after a sequence of mutations, oldest first. -/
def run (ops : List Op) (start : List Transaction) : List Transaction :=
  ops.foldl Op.apply start

/-- The ids carried by the transactions of a list, in list order. -/
def ids (l : List Transaction) : List Int :=
  l.map Transaction.id

/-- Every `add` of the sequence is given a clock value that no transaction of
the list carries as id at the moment of the call. -/
def freshClock : List Op → List Transaction → Bool
  | [], _ => true
  | op :: ops, l =>
    (match op with
      | .add now _ => !(ids l).contains now
      | _ => true) && freshClock ops (op.apply l)

/-- Adding the records of a list in turn, each with the clock value of its call. -/
def addAll (calls : List (Int × Record)) (start : List Transaction) : List Transaction :=
  calls.foldl (fun l c => addTransaction.mutate c.1 c.2 l) start

/-- The four captured fields of a record, in the order date, amount, type,
category. -/
def Record.fields (r : Record) : Value × Value × Value × Value :=
  (r.date, r.amount, r.type, r.category)

/-- The four data fields of a transaction, in the order date, amount, type,
category. -/
def Transaction.fields (t : Transaction) : Value × Value × Value × Value :=
  (t.date, t.amount, t.type, t.category)

/-! ## The form and the page handlers -/

/-- What a handler can throw: reading a property of `null`. -/
inductive JsError where
  | typeError : JsError
  deriving DecidableEq, Repr

/-- `TransactionForm.handleSubmit`: `onSubmit(data); form.reset();`. The handler
is run on the captured data; when it returns, the library's `reset` is applied
to the form; when it throws, the reset is not reached. `φ` is the library's form
state and `reset` its `form.reset`, both left abstract. -/
def TransactionForm.handleSubmit {σ φ : Type} (onSubmit : Record → σ → Except JsError σ)
    (reset : φ → φ) (form : φ) (data : Record) (page : σ) : Except JsError (σ × φ) :=
  match onSubmit data page with
  | .error e => .error e
  | .ok page2 => .ok (page2, reset form)

/-- A call of a store mutation as issued by a page handler, with its argument. -/
inductive MutateCall where
  | add (arg : Record) : MutateCall
  | update (arg : Transaction) : MutateCall
  | delete (arg : Int) : MutateCall
  deriving DecidableEq, Repr

/-- State of the `Index` page: the cached list, the `editingTransaction` state
variable, and the mutation calls issued so far (oldest first). -/
structure IndexState where
  transactions : List Transaction
  editingTransaction : Option Transaction
  calls : List MutateCall
  deriving DecidableEq, Repr

/-- `Index.handleAddTransaction`: `addTransaction.mutate(data)`. -/
def Index.handleAddTransaction (now : Int) (data : Record) (s : IndexState) :
    Except JsError IndexState :=
  .ok { s with
    transactions := addTransaction.mutate now data s.transactions
    calls := s.calls ++ [MutateCall.add data] }

/-- `Index.handleUpdateTransaction`:
`updateTransaction.mutate({ ...data, id: editingTransaction.id }); setEditingTransaction(null);`.
Reading `.id` of `null` throws before anything else happens. -/
def Index.handleUpdateTransaction (data : Record) (s : IndexState) :
    Except JsError IndexState :=
  match s.editingTransaction with
  | none => .error .typeError
  | some e =>
    .ok { s with
      transactions := updateTransaction.mutate (data.withId e.id) s.transactions
      calls := s.calls ++ [MutateCall.update (data.withId e.id)]
      editingTransaction := none }

/-- `Index.handleDeleteTransaction`: `deleteTransaction.mutate(id)`. -/
def Index.handleDeleteTransaction (id : Int) (s : IndexState) : Except JsError IndexState :=
  .ok { s with
    transactions := deleteTransaction.mutate id s.transactions
    calls := s.calls ++ [MutateCall.delete id] }

/-- The record of the scenario `add({date:"2023-04-01", amount:100, type:"income",
category:"Nike"})`. -/
def sampleRecord : Record :=
  { id := none, date := .str "2023-04-01", amount := .num 100, type := .str "income",
    category := .str "Nike" }

/-! ## Auxiliary facts about the three mutations -/

theorem ids_add (now : Int) (r : Record) (l : List Transaction) :
    ids (addTransaction.mutate now r l) = ids l ++ [now] := by
  simp [ids, addTransaction.mutate, addTransaction.onSuccess, addTransaction.mutationFn,
    Record.withId]

theorem ids_update (u : Transaction) (l : List Transaction) :
    ids (updateTransaction.mutate u l) = ids l := by
  simp only [ids, updateTransaction.mutate, updateTransaction.onSuccess,
    updateTransaction.mutationFn, List.map_map]
  apply List.map_congr_left
  intro t _
  by_cases h : t.id = u.id <;> simp [h]

theorem ids_delete (i : Int) (l : List Transaction) :
    ids (deleteTransaction.mutate i l) = (ids l).filter (fun j => j != i) := by
  simp only [ids, deleteTransaction.mutate, deleteTransaction.onSuccess,
    deleteTransaction.mutationFn, List.filter_map]
  rfl

theorem update_absent (u : Transaction) (l : List Transaction)
    (h : ∀ t ∈ l, t.id ≠ u.id) : updateTransaction.mutate u l = l := by
  simp only [updateTransaction.mutate, updateTransaction.onSuccess,
    updateTransaction.mutationFn]
  conv_rhs => rw [← List.map_id l]
  apply List.map_congr_left
  intro t ht
  simp [h t ht]

theorem delete_absent (i : Int) (l : List Transaction)
    (h : ∀ t ∈ l, t.id ≠ i) : deleteTransaction.mutate i l = l := by
  simp only [deleteTransaction.mutate, deleteTransaction.onSuccess,
    deleteTransaction.mutationFn]
  rw [List.filter_eq_self]
  intro t ht
  simpa using h t ht

theorem ids_nodup_step (op : Op) (l : List Transaction) (hl : (ids l).Nodup)
    (hfresh : ∀ now r, op = Op.add now r → now ∉ ids l) : (ids (op.apply l)).Nodup := by
  cases op with
  | add now r =>
    simp only [Op.apply, ids_add]
    rw [List.nodup_append]
    refine ⟨hl, List.nodup_singleton now, ?_⟩
    intro a ha hb
    rw [List.mem_singleton] at hb
    subst hb
    exact hfresh a r rfl ha
  | update u =>
    simp only [Op.apply, ids_update]
    exact hl
  | delete i =>
    simp only [Op.apply, ids_delete]
    exact hl.filter _

theorem ids_nodup_run (ops : List Op) (l : List Transaction) (hl : (ids l).Nodup)
    (hfresh : freshClock ops l = true) : (ids (run ops l)).Nodup := by
  induction ops generalizing l with
  | nil => simpa [run] using hl
  | cons op ops ih =>
    simp only [freshClock, Bool.and_eq_true] at hfresh
    have hstep : (ids (op.apply l)).Nodup := by
      apply ids_nodup_step op l hl
      intro now r hop
      subst hop
      simpa using hfresh.1
    simpa [run] using ih (op.apply l) hstep hfresh.2

theorem addAll_eq (calls : List (Int × Record)) (start : List Transaction) :
    addAll calls start = start ++ calls.map (fun c => c.2.withId c.1) := by
  induction calls generalizing start with
  | nil => simp [addAll]
  | cons c cs ih =>
    have h := ih (addTransaction.mutate c.1 c.2 start)
    simp only [addAll, List.foldl_cons] at h ⊢
    rw [h]
    simp [addTransaction.mutate, addTransaction.onSuccess, addTransaction.mutationFn]

theorem delete_add (now : Int) (r : Record) (l : List Transaction) :
    deleteTransaction.mutate now (addTransaction.mutate now r l)
      = deleteTransaction.mutate now l := by
  simp [deleteTransaction.mutate, deleteTransaction.onSuccess, deleteTransaction.mutationFn,
    addTransaction.mutate, addTransaction.onSuccess, addTransaction.mutationFn,
    Record.withId, List.filter_append]

theorem delete_split (i : Int) (l : List Transaction) (hl : (ids l).Nodup)
    (hi : ∃ t ∈ l, t.id = i) :
    ∃ pre x post, l = pre ++ x :: post ∧ x.id = i ∧
      deleteTransaction.mutate i l = pre ++ post := by
  obtain ⟨t, ht, hti⟩ := hi
  obtain ⟨pre, post, hsplit⟩ := List.append_of_mem ht
  refine ⟨pre, t, post, hsplit, hti, ?_⟩
  subst hsplit
  have hnd : (ids pre ++ t.id :: ids post).Nodup := by simpa [ids] using hl
  have hpre : ∀ y ∈ pre, y.id ≠ i := by
    intro y hy hyi
    have h1 : y.id ∈ ids pre := List.mem_map_of_mem _ hy
    have h2 := (List.nodup_append.1 hnd).2.2 h1
    apply h2
    rw [hyi, hti]
    exact List.mem_cons_self _ _
  have hpost : ∀ y ∈ post, y.id ≠ i := by
    intro y hy hyi
    have h1 : y.id ∈ ids post := List.mem_map_of_mem _ hy
    have h2 := (List.nodup_cons.1 (List.nodup_append.1 hnd).2.1).1
    apply h2
    rw [hti, ← hyi]
    exact h1
  have e1 := delete_absent i pre hpre
  have e2 := delete_absent i post hpost
  simp only [deleteTransaction.mutate, deleteTransaction.onSuccess,
    deleteTransaction.mutationFn] at e1 e2 ⊢
  rw [List.filter_append, List.filter_cons, e1, e2]
  simp [hti]

/-! ## The claims -/

/-- C1, as stated, fails: when the clock yields 1 during an add on the placeholder
list, the new transaction carries the id 1 of the first placeholder, so the ids
of the reachable list are 1, 2, 3, 1; and two adds during which the clock yields
the same value give two transactions of the same id. -/
theorem C1_ids_not_unique_for_every_clock :
    ids (run [Op.add 1 sampleRecord] placeholderTransactions) = [1, 2, 3, 1] ∧
    ¬ (ids (run [Op.add 1 sampleRecord] placeholderTransactions)).Nodup ∧
    ¬ (ids (run [Op.add 1680307200000 sampleRecord, Op.add 1680307200000 sampleRecord]
        placeholderTransactions)).Nodup := by
  refine ⟨by decide, by decide, by decide⟩

/-- C1, amended: in every state reached from the three placeholder transactions
by a sequence of add, update and delete operations in which every add is given a
clock value that no transaction of the list carries at that moment, the ids of
the transactions of the list are pairwise distinct. -/
theorem C1_ids_unique_when_clock_fresh (ops : List Op)
    (hfresh : freshClock ops placeholderTransactions = true) :
    (ids (run ops placeholderTransactions)).Nodup :=
  ids_nodup_run ops placeholderTransactions (by decide) hfresh

/-- C1, amended, at a concrete run: an add at clock 1680307200000, an update of
transaction 3, a delete of transaction 2, an add one millisecond later. -/
theorem C1_ids_unique_when_clock_fresh_witness :
    freshClock
        [Op.add 1680307200000 sampleRecord, Op.update (sampleRecord.withId 3), Op.delete 2,
          Op.add 1680307200001 sampleRecord] placeholderTransactions = true ∧
    (ids (run
        [Op.add 1680307200000 sampleRecord, Op.update (sampleRecord.withId 3), Op.delete 2,
          Op.add 1680307200001 sampleRecord] placeholderTransactions)).Nodup :=
  ⟨by decide, C1_ids_unique_when_clock_fresh _ (by decide)⟩

/-- C2: add appends exactly one transaction. The result has length |L| + 1, its
first |L| elements are L, and its last element carries the date, amount, type
and category of the record with the id read from the clock; on the placeholder
list the scenario record gives a list of length 4 ending in that record. -/
theorem C2_add_appends_one (L : List Transaction) (r : Record) (now : Int) :
    (addTransaction.mutate now r L).length = L.length + 1 ∧
    (addTransaction.mutate now r L).take L.length = L ∧
    (∀ k, k < L.length → (addTransaction.mutate now r L)[k]? = L[k]?) ∧
    (addTransaction.mutate now r L)[L.length]? =
      some { id := now, date := r.date, amount := r.amount, type := r.type,
             category := r.category } ∧
    (addTransaction.mutate now sampleRecord placeholderTransactions).length = 4 ∧
    (addTransaction.mutate now sampleRecord placeholderTransactions).getLast? =
      some { id := now, date := .str "2023-04-01", amount := .num 100,
             type := .str "income", category := .str "Nike" } := by
  refine ⟨?_, ?_, ?_, ?_, ?_, ?_⟩
  · simp [addTransaction.mutate, addTransaction.onSuccess]
  · simp [addTransaction.mutate, addTransaction.onSuccess]
  · intro k hk
    simp [addTransaction.mutate, addTransaction.onSuccess, List.getElem?_append_left hk]
  · simp [addTransaction.mutate, addTransaction.onSuccess, addTransaction.mutationFn,
      Record.withId]
  · simp [addTransaction.mutate, addTransaction.onSuccess, placeholderTransactions]
  · simp [addTransaction.mutate, addTransaction.onSuccess, addTransaction.mutationFn,
      Record.withId, sampleRecord]

/-- C3: update keeps the length of the list, keeps every position whose
transaction has an id other than the id of u, and puts u at every position whose
transaction has the id of u; on the placeholder list, updating transaction 3 to
amount 999 leaves transactions 1 and 2 as they were. -/
theorem C3_update_frame (L : List Transaction) (u : Transaction) :
    (updateTransaction.mutate u L).length = L.length ∧
    (∀ (k : Nat) (t : Transaction), L[k]? = some t →
      (t.id ≠ u.id → (updateTransaction.mutate u L)[k]? = some t) ∧
      (t.id = u.id → (updateTransaction.mutate u L)[k]? = some u)) ∧
    updateTransaction.mutate
        { id := 3, date := .str "2023-03-25", amount := .num 999, type := .str "expense",
          category := .str "Puma" } placeholderTransactions =
      [ { id := 1, date := .str "2023-03-15", amount := .num 250, type := .str "expense",
          category := .str "Nike" },
        { id := 2, date := .str "2023-03-20", amount := .num 300, type := .str "income",
          category := .str "Adidas" },
        { id := 3, date := .str "2023-03-25", amount := .num 999, type := .str "expense",
          category := .str "Puma" } ] := by
  refine ⟨?_, ?_, by decide⟩
  · simp [updateTransaction.mutate, updateTransaction.onSuccess]
  · intro k t hk
    simp only [updateTransaction.mutate, updateTransaction.onSuccess,
      updateTransaction.mutationFn, List.getElem?_map, hk, Option.map_some']
    constructor
    · intro h
      rw [if_neg h]
    · intro h
      rw [if_pos h]

/-- C4: on a list of pairwise distinct ids, deleting an id that some transaction
carries gives a list one shorter, without any transaction of that id, made of
the other transactions unchanged and in their order: the list splits around the
one transaction of that id and the result is what stands before it followed by
what stands after it. -/
theorem C4_delete_present (L : List Transaction) (i : Int) (hL : (ids L).Nodup)
    (hi : ∃ t ∈ L, t.id = i) :
    (deleteTransaction.mutate i L).length = L.length - 1 ∧
    (∀ t ∈ deleteTransaction.mutate i L, t.id ≠ i) ∧
    (∀ t ∈ L, t.id ≠ i → t ∈ deleteTransaction.mutate i L) ∧
    (deleteTransaction.mutate i L).Sublist L ∧
    ∃ pre x post, L = pre ++ x :: post ∧ x.id = i ∧
      deleteTransaction.mutate i L = pre ++ post := by
  obtain ⟨pre, x, post, hsplit, hx, hdel⟩ := delete_split i L hL hi
  refine ⟨?_, ?_, ?_, ?_, pre, x, post, hsplit, hx, hdel⟩
  · rw [hdel, hsplit]
    simp
  · intro t ht
    simp only [deleteTransaction.mutate, deleteTransaction.onSuccess,
      deleteTransaction.mutationFn, List.mem_filter] at ht
    simpa using ht.2
  · intro t ht hne
    simp only [deleteTransaction.mutate, deleteTransaction.onSuccess,
      deleteTransaction.mutationFn, List.mem_filter]
    exact ⟨ht, by simpa using hne⟩
  · simp only [deleteTransaction.mutate, deleteTransaction.onSuccess]
    exact List.filter_sublist _

/-- C4 on the placeholder list: delete(2) yields exactly the transactions of ids
1 and 3, in that order. -/
theorem C4_delete_present_witness :
    (ids placeholderTransactions).Nodup ∧
    deleteTransaction.mutate 2 placeholderTransactions =
      [ { id := 1, date := .str "2023-03-15", amount := .num 250, type := .str "expense",
          category := .str "Nike" },
        { id := 3, date := .str "2023-03-25", amount := .num 180, type := .str "expense",
          category := .str "Puma" } ] ∧
    (deleteTransaction.mutate 2 placeholderTransactions).length =
      placeholderTransactions.length - 1 ∧
    (∀ t ∈ deleteTransaction.mutate 2 placeholderTransactions, t.id ≠ 2) :=
  have h := C4_delete_present placeholderTransactions 2 (by decide) (by decide)
  ⟨by decide, by decide, h.1, h.2.1⟩

/-- C5: deleting an id that no transaction of the list carries returns the list
itself, and the page handler that issues the delete returns normally (it throws
nothing) with the list as it was. -/
theorem C5_delete_absent_is_noop (L : List Transaction) (i : Int)
    (hi : ∀ t ∈ L, t.id ≠ i) :
    deleteTransaction.mutate i L = L ∧
    (deleteTransaction.mutate i L).length = L.length ∧
    ∀ (e : Option Transaction) (cs : List MutateCall),
      Index.handleDeleteTransaction i
          { transactions := L, editingTransaction := e, calls := cs } =
        .ok { transactions := L, editingTransaction := e,
              calls := cs ++ [MutateCall.delete i] } := by
  have h := delete_absent i L hi
  refine ⟨h, by rw [h], ?_⟩
  intro e cs
  simp [Index.handleDeleteTransaction, h]

/-- C5 on the placeholder list: delete(7) returns the three placeholders. -/
theorem C5_delete_absent_is_noop_witness :
    (∀ t ∈ placeholderTransactions, t.id ≠ 7) ∧
    deleteTransaction.mutate 7 placeholderTransactions = placeholderTransactions :=
  ⟨by decide, (C5_delete_absent_is_noop placeholderTransactions 7 (by decide)).1⟩

/-- C6: updating with a record whose id no transaction of the list carries
returns the list itself: same length, same transactions, the record is not
inserted. -/
theorem C6_update_absent_is_noop (L : List Transaction) (u : Transaction)
    (hu : ∀ t ∈ L, t.id ≠ u.id) :
    updateTransaction.mutate u L = L ∧
    (updateTransaction.mutate u L).length = L.length ∧
    u ∉ updateTransaction.mutate u L := by
  have h := update_absent u L hu
  refine ⟨h, by rw [h], ?_⟩
  rw [h]
  intro hmem
  exact hu u hmem rfl

/-- C6 on the placeholder list: an update carrying the id 7 returns the three
placeholders. -/
theorem C6_update_absent_is_noop_witness :
    (∀ t ∈ placeholderTransactions, t.id ≠ (sampleRecord.withId 7).id) ∧
    updateTransaction.mutate (sampleRecord.withId 7) placeholderTransactions =
      placeholderTransactions :=
  ⟨by decide,
    (C6_update_absent_is_noop placeholderTransactions (sampleRecord.withId 7) (by decide)).1⟩

/-- C7, as stated, fails: when the clock yields 1 during the add of the scenario
record to the placeholder list, the created transaction has the id of the first
placeholder, and updating with the created transaction overwrites that
placeholder too. -/
theorem C7_update_after_add_changes_list_on_collision :
    updateTransaction.mutate (addTransaction.mutationFn 1 sampleRecord)
        (addTransaction.mutate 1 sampleRecord placeholderTransactions) ≠
      addTransaction.mutate 1 sampleRecord placeholderTransactions ∧
    (updateTransaction.mutate (addTransaction.mutationFn 1 sampleRecord)
        (addTransaction.mutate 1 sampleRecord placeholderTransactions))[0]? =
      some { id := 1, date := .str "2023-04-01", amount := .num 100,
             type := .str "income", category := .str "Nike" } ∧
    (addTransaction.mutate 1 sampleRecord placeholderTransactions)[0]? =
      some { id := 1, date := .str "2023-03-15", amount := .num 250,
             type := .str "expense", category := .str "Nike" } := by
  refine ⟨by decide, by decide, by decide⟩

/-- C7, amended: when no transaction of L carries the id that add assigns, add
produces the list L' with created transaction c, and update(c) applied to L'
returns L'. -/
theorem C7_update_after_add_is_noop_when_fresh (L : List Transaction) (r : Record)
    (now : Int) (hfresh : ∀ t ∈ L, t.id ≠ now) :
    addTransaction.mutate now r L = L ++ [addTransaction.mutationFn now r] ∧
    updateTransaction.mutate (addTransaction.mutationFn now r)
        (addTransaction.mutate now r L) =
      addTransaction.mutate now r L := by
  refine ⟨rfl, ?_⟩
  have hL : updateTransaction.mutate (addTransaction.mutationFn now r) L = L :=
    update_absent _ L (by simpa [addTransaction.mutationFn, Record.withId] using hfresh)
  simp only [updateTransaction.mutate, updateTransaction.onSuccess,
    updateTransaction.mutationFn] at hL
  simp only [updateTransaction.mutate, updateTransaction.onSuccess,
    updateTransaction.mutationFn, addTransaction.mutate, addTransaction.onSuccess,
    List.map_append, hL]
  simp

/-- C7, amended, on the placeholder list with the clock at 1680307200000. -/
theorem C7_update_after_add_is_noop_when_fresh_witness :
    (∀ t ∈ placeholderTransactions, t.id ≠ 1680307200000) ∧
    updateTransaction.mutate (addTransaction.mutationFn 1680307200000 sampleRecord)
        (addTransaction.mutate 1680307200000 sampleRecord placeholderTransactions) =
      addTransaction.mutate 1680307200000 sampleRecord placeholderTransactions :=
  ⟨by decide,
    (C7_update_after_add_is_noop_when_fresh placeholderTransactions sampleRecord
      1680307200000 (by decide)).2⟩

/-- C8: adding N records in turn to the empty list gives a list of length N
whose k-th transaction carries the date, amount, type and category of the k-th
record added (and the id read from the clock during the k-th add), whatever
values the clock yields. -/
theorem C8_add_all_from_empty (calls : List (Int × Record)) :
    (addAll calls []).length = calls.length ∧
    (∀ k : Nat, ((addAll calls [])[k]?).map Transaction.fields =
      (calls[k]?).map (fun c => c.2.fields)) ∧
    (∀ k : Nat, ((addAll calls [])[k]?).map Transaction.id =
      (calls[k]?).map (fun c => c.1)) := by
  rw [addAll_eq]
  refine ⟨by simp, ?_, ?_⟩
  · intro k
    simp only [List.nil_append, List.getElem?_map, Option.map_map]
    rfl
  · intro k
    simp only [List.nil_append, List.getElem?_map, Option.map_map]
    rfl

/-- C9: submitting the form hands the captured record to the store. In create
mode the argument of the add call is the captured record itself; in edit mode
with editing target e the argument of the update call is the captured record
with its id set to the id of e, whatever id the captured record carries, the
store is updated with that argument, and the editing target is cleared. This
holds whatever the form library's reset does to the form. -/
theorem C9_form_submission {φ : Type} (reset : φ → φ) (form : φ) (d : Record)
    (s : IndexState) (now : Int) :
    TransactionForm.handleSubmit (Index.handleAddTransaction now) reset form d s =
      .ok ({ transactions := addTransaction.mutate now d s.transactions,
             editingTransaction := s.editingTransaction,
             calls := s.calls ++ [MutateCall.add d] },
           reset form) ∧
    (∀ e : Transaction, s.editingTransaction = some e →
      TransactionForm.handleSubmit Index.handleUpdateTransaction reset form d s =
        .ok ({ transactions :=
                 updateTransaction.mutate
                   { id := e.id, date := d.date, amount := d.amount, type := d.type,
                     category := d.category } s.transactions,
               editingTransaction := none,
               calls := s.calls ++ [MutateCall.update
                 { id := e.id, date := d.date, amount := d.amount, type := d.type,
                   category := d.category }] },
             reset form)) := by
  refine ⟨rfl, ?_⟩
  intro e he
  simp [TransactionForm.handleSubmit, Index.handleUpdateTransaction, he, Record.withId]

/-- C9 at a concrete page: the form was opened on placeholder 3, the captured
record carries the id 42 and the amount 999; the update call receives the id 3,
placeholder 3 gets the amount 999 and the editing target is cleared. The form
state is kept abstract (the one-point type). -/
theorem C9_form_submission_witness :
    TransactionForm.handleSubmit Index.handleUpdateTransaction (fun u : Unit => u) ()
        { id := some 42, date := .str "2023-03-25", amount := .num 999,
          type := .str "expense", category := .str "Puma" }
        { transactions := placeholderTransactions,
          editingTransaction := some (sampleRecord.withId 3),
          calls := [] } =
      .ok ({ transactions :=
               [ { id := 1, date := .str "2023-03-15", amount := .num 250,
                   type := .str "expense", category := .str "Nike" },
                 { id := 2, date := .str "2023-03-20", amount := .num 300,
                   type := .str "income", category := .str "Adidas" },
                 { id := 3, date := .str "2023-03-25", amount := .num 999,
                   type := .str "expense", category := .str "Puma" } ],
             editingTransaction := none,
             calls := [MutateCall.update
               { id := 3, date := .str "2023-03-25", amount := .num 999,
                 type := .str "expense", category := .str "Puma" }] },
           ()) :=
  (C9_form_submission (fun u : Unit => u) ()
      { id := some 42, date := .str "2023-03-25", amount := .num 999,
        type := .str "expense", category := .str "Puma" }
      { transactions := placeholderTransactions,
        editingTransaction := some (sampleRecord.withId 3),
        calls := [] } 0).2
    (sampleRecord.withId 3) rfl

/-- C10: add followed by delete of the assigned id. When no transaction of L
carries the id t that add assigns, the result is L; when some transaction of L
carries t, the result is L without any of its transactions of id t, which is
not L. -/
theorem C10_delete_after_add (L : List Transaction) (r : Record) (t : Int) :
    ((∀ x ∈ L, x.id ≠ t) →
      deleteTransaction.mutate t (addTransaction.mutate t r L) = L) ∧
    ((∃ x ∈ L, x.id = t) →
      deleteTransaction.mutate t (addTransaction.mutate t r L) =
        L.filter (fun x => decide (x.id ≠ t)) ∧
      (∀ x ∈ deleteTransaction.mutate t (addTransaction.mutate t r L), x.id ≠ t) ∧
      (∀ x ∈ L, x.id ≠ t → x ∈ deleteTransaction.mutate t (addTransaction.mutate t r L)) ∧
      deleteTransaction.mutate t (addTransaction.mutate t r L) ≠ L) := by
  rw [delete_add]
  refine ⟨delete_absent t L, ?_⟩
  rintro ⟨x, hx, hxt⟩
  have hmem : ∀ y, y ∈ deleteTransaction.mutate t L ↔ y ∈ L ∧ y.id ≠ t := by
    intro y
    simp [deleteTransaction.mutate, deleteTransaction.onSuccess,
      deleteTransaction.mutationFn]
  refine ⟨?_, ?_, ?_, ?_⟩
  · simp only [deleteTransaction.mutate, deleteTransaction.onSuccess,
      deleteTransaction.mutationFn]
    congr 1
    funext y
    by_cases h : y.id = t <;> simp [h]
  · intro y hy
    exact ((hmem y).1 hy).2
  · intro y hy hne
    exact (hmem y).2 ⟨hy, hne⟩
  · intro heq
    have hx2 : x ∈ deleteTransaction.mutate t L := by rw [heq]; exact hx
    exact ((hmem x).1 hx2).2 hxt

/-- C10 at concrete inputs: on the placeholder list, add at clock 1680307200000
then delete of that id gives the placeholders back; add at clock 2 then delete
of 2 gives the placeholders of ids 1 and 3. -/
theorem C10_delete_after_add_witness :
    deleteTransaction.mutate 1680307200000
        (addTransaction.mutate 1680307200000 sampleRecord placeholderTransactions) =
      placeholderTransactions ∧
    ids (deleteTransaction.mutate 2
        (addTransaction.mutate 2 sampleRecord placeholderTransactions)) = [1, 3] :=
  ⟨(C10_delete_after_add placeholderTransactions sampleRecord 1680307200000).1 (by decide),
    by
      rw [((C10_delete_after_add placeholderTransactions sampleRecord 2).2 (by decide)).1]
      decide⟩

end SneakerHub
